import Mathlib

/-!
Verification of the Farmease time-aware ML training pipeline
(`ml/train_models.py`, `ml/ml_pipeline.py`) against its natural-language
specification.  The Python functions are shallowly embedded as executable
Lean definitions: Python ints become `Nat`/`Int`, floats become `ℚ`
(the constants appearing in the claims, 0.25/0.10/10.5/0.79, are exactly
representable both as rationals and as IEEE doubles, so the arithmetic
facts proved here coincide with the float computations), `None`/NaN
becomes `Option.none`, and raised exceptions become `Except.error`.
-/

namespace Farmease

/-! ## Fold generator (`build_walk_forward_folds`, train_models.py lines 102-126)

A fold is a pair of half-open index ranges `((train_start, train_end),
(valid_start, valid_end))`, embedding the Python pair of `slice` objects. -/

abbrev Fold := (Nat × Nat) × (Nat × Nat)

/-- The `while` loop of `build_walk_forward_folds`.  Each iteration either
appends one fold (so at most `n_splits` iterations happen, which is the
fuel) or terminates; `train_end` is the loop-carried boundary. -/
def foldsLoop (total_rows min_valid_rows step : Nat) : Nat → Nat → List Fold
  | 0, _ => []
  | fuel + 1, train_end =>
    if train_end + min_valid_rows ≤ total_rows then
      let valid_end := min (train_end + step) total_rows
      if valid_end - train_end < min_valid_rows then []
      else ((0, train_end), (train_end, valid_end)) ::
        foldsLoop total_rows min_valid_rows step fuel valid_end
    else []

/-- Embedding of `build_walk_forward_folds(total_rows, n_splits,
min_train_rows=80, min_valid_rows=20)`: returns `[]` when
`total_rows < min_train_rows + min_valid_rows` or `n_splits < 2`,
otherwise runs the expanding-window loop with
`step = max(min_valid_rows, (total_rows - min_train_rows) // n_splits)`. -/
def build_walk_forward_folds (total_rows n_splits : Nat)
    (min_train_rows : Nat := 80) (min_valid_rows : Nat := 20) : List Fold :=
  if total_rows < min_train_rows + min_valid_rows then []
  else if n_splits < 2 then []
  else
    foldsLoop total_rows min_valid_rows
      (max min_valid_rows ((total_rows - min_train_rows) / n_splits))
      n_splits min_train_rows

lemma foldsLoop_invariant (total mv step : Nat) (hmv : 1 ≤ mv) :
    ∀ (fuel te : Nat), ∀ f ∈ foldsLoop total mv step fuel te,
      f.1.1 = 0 ∧ f.1.2 = f.2.1 ∧ f.2.1 < f.2.2 := by
  intro fuel
  induction fuel with
  | zero => intro te f hf; simp [foldsLoop] at hf
  | succ k ih =>
    intro te f hf
    simp only [foldsLoop] at hf
    by_cases hguard : te + mv ≤ total
    · rw [if_pos hguard] at hf
      by_cases hbreak : min (te + step) total - te < mv
      · rw [if_pos hbreak] at hf; simp at hf
      · rw [if_neg hbreak] at hf
        rcases List.mem_cons.mp hf with hhead | htail
        · subst hhead
          refine ⟨rfl, rfl, ?_⟩
          show te < min (te + step) total
          push_neg at hbreak
          omega
        · exact ih _ f htail
    · rw [if_neg hguard] at hf; simp at hf

/-- C1, counterexample: as stated over all inputs the claim fails.  With
`min_valid_rows = 0` (and `total_rows = min_train_rows = 100`,
`n_splits = 2`) the initial size guard passes, `step = 0`, and the loop
emits folds whose validation range `[100, 100)` is empty. -/
theorem fold_validation_nonempty_fails_at_zero_min_valid :
    ¬ (∀ f ∈ build_walk_forward_folds 100 2 100 0, f.2.1 < f.2.2) := by
  decide

/-- C1 (amended): whenever `min_valid_rows ≥ 1` (the default is 20 and the
orchestrator always passes at least 20), every fold returned by
`build_walk_forward_folds` has a training range that is a prefix starting
at index 0, `train.end = validation.start` (hence `≤`), and a non-empty
validation range; and the call with `total_rows=220, n_splits=4,
min_train_rows=80, min_valid_rows=20` returns exactly 4 folds, the first
being train `[0,80)`, validation `[80,115)`. -/
theorem fold_invariants_and_220_example (total n mt mv : Nat) (hmv : 1 ≤ mv) :
    (∀ f ∈ build_walk_forward_folds total n mt mv,
        f.1.1 = 0 ∧ f.1.2 = f.2.1 ∧ f.2.1 < f.2.2) ∧
      build_walk_forward_folds 220 4 80 20 =
        [((0, 80), (80, 115)), ((0, 115), (115, 150)),
         ((0, 150), (150, 185)), ((0, 185), (185, 220))] := by
  constructor
  · intro f hf
    unfold build_walk_forward_folds at hf
    split at hf
    · simp at hf
    · split at hf
      · simp at hf
      · exact foldsLoop_invariant total mv _ hmv n mt f hf
  · rfl

/-- Witness for `fold_invariants_and_220_example` at the spec's concrete
input. -/
theorem fold_invariants_witness :
    build_walk_forward_folds 220 4 80 20 =
      [((0, 80), (80, 115)), ((0, 115), (115, 150)),
       ((0, 150), (150, 185)), ((0, 185), (185, 220))] :=
  (fold_invariants_and_220_example 220 4 80 20 (by decide)).2

/-! ## Candidate selection (`fit_best_regressor` / `fit_best_classifier`,
train_models.py lines 366-447 and 450-544)

The selection loops iterate over the candidate registry in order.  Each
candidate either fails inside `fit`/`predict` (the `except` branch, here a
`none` score: the candidate is skipped with a warning) or yields a
selection score (a finite float, here `ℚ`).  `fit_best_regressor` starts
from `best_pipeline = None, best_selection_loss = inf` and replaces the
incumbent when `loss < best_selection_loss`; `fit_best_classifier` starts
from `best_name = None, best_selection_score = -1.0` and replaces when
`score > best_selection_score`. -/

/-- One iteration of the regression selection loop (lines 438-442):
`none` means no candidate has been selected yet (`best_selection_loss`
is `inf`, which every finite loss beats). -/
def regSelectStep (best : Option (String × ℚ)) (item : String × Option ℚ) :
    Option (String × ℚ) :=
  match item.2 with
  | none => best
  | some loss =>
    match best with
    | none => some (item.1, loss)
    | some (bn, bl) => if loss < bl then (item.1, loss) else (bn, bl)

/-- The regression selection fold over the candidate registry, in registry
order. -/
def fit_best_regressor_select (l : List (String × Option ℚ)) :
    Option (String × ℚ) :=
  l.foldl regSelectStep none

/-- One iteration of the classification selection loop (lines 535-539):
the incumbent name starts as `None` with score `-1.0`. -/
def clsSelectStep (best : Option String × ℚ) (item : String × Option ℚ) :
    Option String × ℚ :=
  match item.2 with
  | none => best
  | some score => if best.2 < score then (some item.1, score) else best

/-- The classification selection fold over the candidate registry. -/
def fit_best_classifier_select (l : List (String × Option ℚ)) :
    Option String × ℚ :=
  l.foldl clsSelectStep (none, -1)

/-- The warnings accumulated by `fit_best_regressor` (line 409): one entry
per candidate whose `fit`/`predict` raised.  The exception text
interpolated in the Python f-string is summarised by the model name. -/
def fit_best_regressor_warnings (l : List (String × Option ℚ)) : List String :=
  l.filterMap fun p =>
    match p.2 with
    | none => some ("Skipped regression model " ++ p.1)
    | some _ => none

/-- `p` beats no earlier entry: every scored entry of `l₁` is strictly
below `s` (regression reading). -/
def StrictlyBelowAll (s : ℚ) (l : List (String × Option ℚ)) : Prop :=
  ∀ p ∈ l, ∀ t : ℚ, p.2 = some t → s < t

/-- Every scored entry of `l` is at least `s` (so a later equal score keeps
the incumbent). -/
def AtLeastAll (s : ℚ) (l : List (String × Option ℚ)) : Prop :=
  ∀ p ∈ l, ∀ t : ℚ, p.2 = some t → s ≤ t

lemma regSelect_aux (l : List (String × Option ℚ)) :
    ∀ (bn : String) (bl : ℚ) (n : String) (s : ℚ),
      l.foldl regSelectStep (some (bn, bl)) = some (n, s) →
      (n = bn ∧ s = bl ∧ AtLeastAll bl l) ∨
        (s < bl ∧ ∃ l₁ l₂, l = l₁ ++ (n, some s) :: l₂ ∧
          StrictlyBelowAll s l₁ ∧ AtLeastAll s l₂) := by
  induction l with
  | nil =>
    intro bn bl n s h
    simp only [List.foldl_nil, Option.some.injEq, Prod.mk.injEq] at h
    exact Or.inl ⟨h.1.symm, h.2.symm, by intro p hp; simp at hp⟩
  | cons p rest ih =>
    intro bn bl n s h
    rcases p with ⟨m, mscore⟩
    match mscore with
    | none =>
      rw [List.foldl_cons] at h
      have hstep : regSelectStep (some (bn, bl)) (m, none) = some (bn, bl) := rfl
      rw [hstep] at h
      rcases ih bn bl n s h with ⟨h1, h2, h3⟩ | ⟨hlt, l₁, l₂, heq, hbelow, hge⟩
      · refine Or.inl ⟨h1, h2, ?_⟩
        intro q hq t ht
        rcases List.mem_cons.mp hq with rfl | hq'
        · simp at ht
        · exact h3 q hq' t ht
      · refine Or.inr ⟨hlt, (m, none) :: l₁, l₂, by simp [heq], ?_, hge⟩
        intro q hq t ht
        rcases List.mem_cons.mp hq with rfl | hq'
        · simp at ht
        · exact hbelow q hq' t ht
    | some t =>
      rw [List.foldl_cons] at h
      by_cases hlt : t < bl
      · have hstep : regSelectStep (some (bn, bl)) (m, some t) = some (m, t) := by
          simp [regSelectStep, hlt]
        rw [hstep] at h
        rcases ih m t n s h with ⟨h1, h2, h3⟩ | ⟨hlt', l₁, l₂, heq, hbelow, hge⟩
        · subst h1; subst h2
          refine Or.inr ⟨hlt, [], rest, rfl, ?_, h3⟩
          intro q hq; simp at hq
        · refine Or.inr ⟨lt_trans hlt' hlt, (m, some t) :: l₁, l₂, by simp [heq], ?_, hge⟩
          intro q hq u hu
          rcases List.mem_cons.mp hq with rfl | hq'
          · simp only [Option.some.injEq] at hu; exact hu ▸ hlt'
          · exact hbelow q hq' u hu
      · have hstep : regSelectStep (some (bn, bl)) (m, some t) = some (bn, bl) := by
          simp [regSelectStep, hlt]
        rw [hstep] at h
        rcases ih bn bl n s h with ⟨h1, h2, h3⟩ | ⟨hlt', l₁, l₂, heq, hbelow, hge⟩
        · refine Or.inl ⟨h1, h2, ?_⟩
          intro q hq u hu
          rcases List.mem_cons.mp hq with rfl | hq'
          · simp only [Option.some.injEq] at hu
            exact hu ▸ le_of_not_lt hlt
          · exact h3 q hq' u hu
        · refine Or.inr ⟨hlt', (m, some t) :: l₁, l₂, by simp [heq], ?_, hge⟩
          intro q hq u hu
          rcases List.mem_cons.mp hq with rfl | hq'
          · simp only [Option.some.injEq] at hu
            subst hu
            exact lt_of_lt_of_le hlt' (le_of_not_lt hlt)
          · exact hbelow q hq' u hu

lemma regSelect_first_min (l : List (String × Option ℚ)) (n : String) (s : ℚ) :
    fit_best_regressor_select l = some (n, s) →
    ∃ l₁ l₂, l = l₁ ++ (n, some s) :: l₂ ∧
      StrictlyBelowAll s l₁ ∧ AtLeastAll s l₂ := by
  induction l with
  | nil => intro h; simp [fit_best_regressor_select] at h
  | cons p rest ih =>
    intro h
    rcases p with ⟨m, mscore⟩
    match mscore with
    | none =>
      have h' : fit_best_regressor_select rest = some (n, s) := h
      rcases ih h' with ⟨l₁, l₂, heq, hbelow, hge⟩
      refine ⟨(m, none) :: l₁, l₂, by simp [heq], ?_, hge⟩
      intro q hq t ht
      rcases List.mem_cons.mp hq with rfl | hq'
      · simp at ht
      · exact hbelow q hq' t ht
    | some t =>
      have h' : rest.foldl regSelectStep (some (m, t)) = some (n, s) := h
      rcases regSelect_aux rest m t n s h' with ⟨h1, h2, h3⟩ | ⟨hlt, l₁, l₂, heq, hbelow, hge⟩
      · subst h1; subst h2
        exact ⟨[], rest, rfl, by intro q hq; simp at hq, h3⟩
      · refine ⟨(m, some t) :: l₁, l₂, by simp [heq], ?_, hge⟩
        intro q hq u hu
        rcases List.mem_cons.mp hq with rfl | hq'
        · simp only [Option.some.injEq] at hu; exact hu ▸ hlt
        · exact hbelow q hq' u hu

/-- `p` beats no earlier entry: every scored entry of `l₁` is strictly
above `s` (classification reading). -/
def StrictlyAboveAll (s : ℚ) (l : List (String × Option ℚ)) : Prop :=
  ∀ p ∈ l, ∀ t : ℚ, p.2 = some t → t < s

/-- Every scored entry of `l` is at most `s`. -/
def AtMostAll (s : ℚ) (l : List (String × Option ℚ)) : Prop :=
  ∀ p ∈ l, ∀ t : ℚ, p.2 = some t → t ≤ s

lemma clsSelect_aux (l : List (String × Option ℚ)) :
    ∀ (bn : Option String) (bl : ℚ) (n : String) (s : ℚ),
      l.foldl clsSelectStep (bn, bl) = (some n, s) →
      (bn = some n ∧ s = bl ∧ AtMostAll bl l) ∨
        (bl < s ∧ ∃ l₁ l₂, l = l₁ ++ (n, some s) :: l₂ ∧
          StrictlyAboveAll s l₁ ∧ AtMostAll s l₂) := by
  induction l with
  | nil =>
    intro bn bl n s h
    simp only [List.foldl_nil, Prod.mk.injEq] at h
    exact Or.inl ⟨h.1, h.2.symm, by intro p hp; simp at hp⟩
  | cons p rest ih =>
    intro bn bl n s h
    rcases p with ⟨m, mscore⟩
    match mscore with
    | none =>
      have h' : rest.foldl clsSelectStep (bn, bl) = (some n, s) := h
      rcases ih bn bl n s h' with ⟨h1, h2, h3⟩ | ⟨hlt, l₁, l₂, heq, habove, hle⟩
      · refine Or.inl ⟨h1, h2, ?_⟩
        intro q hq t ht
        rcases List.mem_cons.mp hq with rfl | hq'
        · simp at ht
        · exact h3 q hq' t ht
      · refine Or.inr ⟨hlt, (m, none) :: l₁, l₂, by simp [heq], ?_, hle⟩
        intro q hq t ht
        rcases List.mem_cons.mp hq with rfl | hq'
        · simp at ht
        · exact habove q hq' t ht
    | some t =>
      by_cases hgt : bl < t
      · have hstep : clsSelectStep (bn, bl) (m, some t) = (some m, t) := by
          simp [clsSelectStep, hgt]
        have h' : rest.foldl clsSelectStep (some m, t) = (some n, s) := by
          rw [List.foldl_cons, hstep] at h; exact h
        rcases ih (some m) t n s h' with ⟨h1, h2, h3⟩ | ⟨hlt', l₁, l₂, heq, habove, hle⟩
        · simp only [Option.some.injEq] at h1
          subst h1; subst h2
          refine Or.inr ⟨hgt, [], rest, rfl, ?_, h3⟩
          intro q hq; simp at hq
        · refine Or.inr ⟨lt_trans hgt hlt', (m, some t) :: l₁, l₂, by simp [heq], ?_, hle⟩
          intro q hq u hu
          rcases List.mem_cons.mp hq with rfl | hq'
          · simp only [Option.some.injEq] at hu; exact hu ▸ hlt'
          · exact habove q hq' u hu
      · have hstep : clsSelectStep (bn, bl) (m, some t) = (bn, bl) := by
          simp [clsSelectStep, hgt]
        have h' : rest.foldl clsSelectStep (bn, bl) = (some n, s) := by
          rw [List.foldl_cons, hstep] at h; exact h
        rcases ih bn bl n s h' with ⟨h1, h2, h3⟩ | ⟨hlt', l₁, l₂, heq, habove, hle⟩
        · refine Or.inl ⟨h1, h2, ?_⟩
          intro q hq u hu
          rcases List.mem_cons.mp hq with rfl | hq'
          · simp only [Option.some.injEq] at hu
            exact hu ▸ le_of_not_lt hgt
          · exact h3 q hq' u hu
        · refine Or.inr ⟨hlt', (m, some t) :: l₁, l₂, by simp [heq], ?_, hle⟩
          intro q hq u hu
          rcases List.mem_cons.mp hq with rfl | hq'
          · simp only [Option.some.injEq] at hu
            subst hu
            exact lt_of_le_of_lt (le_of_not_lt hgt) hlt'
          · exact habove q hq' u hu

/-- C2: in both selection loops the winner is the first candidate in
registry order achieving the optimal selection score.  For regression,
`fit_best_regressor_select l = some (n, s)` means the registry splits as
`l₁ ++ (n, some s) :: l₂` where every earlier scored candidate is strictly
worse (`s < t`) and every later one is no better (`s ≤ t`) — so a later
candidate replaces the incumbent only when strictly better and equal
scores keep the incumbent.  Dually for classification (whose scores,
being F1-based, exceed the `-1.0` sentinel).  Both selections are plain
functions of the registry list, hence deterministic in registry order. -/
theorem selection_first_best_in_registry_order (l : List (String × Option ℚ))
    (n : String) (s : ℚ) :
    (fit_best_regressor_select l = some (n, s) →
      ∃ l₁ l₂, l = l₁ ++ (n, some s) :: l₂ ∧
        StrictlyBelowAll s l₁ ∧ AtLeastAll s l₂) ∧
    (fit_best_classifier_select l = (some n, s) →
      ∃ l₁ l₂, l = l₁ ++ (n, some s) :: l₂ ∧
        StrictlyAboveAll s l₁ ∧ AtMostAll s l₂) ∧
    (∀ (bn : String) (bl : ℚ) (m : String),
      regSelectStep (some (bn, bl)) (m, some bl) = some (bn, bl) ∧
        clsSelectStep (some bn, bl) (m, some bl) = (some bn, bl)) := by
  refine ⟨regSelect_first_min l n s, ?_, ?_⟩
  · intro h
    rcases clsSelect_aux l none (-1) n s h with ⟨h1, _, _⟩ | ⟨_, l₁, l₂, heq, habove, hle⟩
    · simp at h1
    · exact ⟨l₁, l₂, heq, habove, hle⟩
  · intro bn bl m
    constructor
    · simp [regSelectStep]
    · simp [clsSelectStep]

/-- Witness for `selection_first_best_in_registry_order`: with scores
`[mae 3, mae 2, mae 2]` the second candidate wins for regression (first of
the two candidates tied at the minimum), and with F1-style scores
`[0.5, 0.9, 0.9]` the second wins for classification. -/
theorem selection_first_best_witness :
    fit_best_regressor_select
        [("hist_gradient_boosting", some 3), ("random_forest", some 2),
         ("xgboost", some 2)] = some ("random_forest", 2) ∧
      ∃ l₁ l₂,
        [("hist_gradient_boosting", some (3 : ℚ)), ("random_forest", some 2),
         ("xgboost", some 2)] = l₁ ++ ("random_forest", some (2 : ℚ)) :: l₂ ∧
          StrictlyBelowAll 2 l₁ ∧ AtLeastAll 2 l₂ := by
  refine ⟨by decide, ?_⟩
  exact (selection_first_best_in_registry_order
    [("hist_gradient_boosting", some 3), ("random_forest", some 2),
     ("xgboost", some 2)] "random_forest" 2).1 (by decide)

/-- C8: a regression candidate whose `fit`/`predict` raises (a `none`
score) is recorded as a warning and is transparent to selection, and the
`NoViableModel` outcome (`best_pipeline is None`, line 444) happens iff
every candidate raised: one successful candidate suffices to select a
model. -/
theorem failed_candidates_skipped_no_viable_iff_all_failed
    (l l₁ l₂ : List (String × Option ℚ)) (n : String) :
    (fit_best_regressor_select l = none ↔ ∀ p ∈ l, p.2 = none) ∧
    fit_best_regressor_select (l₁ ++ (n, none) :: l₂) =
      fit_best_regressor_select (l₁ ++ l₂) ∧
    fit_best_regressor_warnings (l₁ ++ (n, none) :: l₂) =
      fit_best_regressor_warnings l₁ ++
        ("Skipped regression model " ++ n) :: fit_best_regressor_warnings l₂ := by
  refine ⟨?_, ?_, ?_⟩
  · induction l with
    | nil => simp [fit_best_regressor_select]
    | cons p rest ih =>
      rcases p with ⟨m, mscore⟩
      match mscore with
      | none =>
        have hstep : fit_best_regressor_select ((m, none) :: rest) =
            fit_best_regressor_select rest := rfl
        rw [hstep]
        constructor
        · intro h q hq
          rcases List.mem_cons.mp hq with rfl | hq'
          · rfl
          · exact ih.mp h q hq'
        · intro h
          exact ih.mpr fun q hq => h q (List.mem_cons_of_mem _ hq)
      | some v =>
        constructor
        · intro h
          exfalso
          have : ∀ (acc : String × ℚ) (t : List (String × Option ℚ)),
              t.foldl regSelectStep (some acc) ≠ none := by
            intro acc t
            induction t generalizing acc with
            | nil => simp
            | cons q tr ihq =>
              rcases q with ⟨qn, qscore⟩
              match qscore with
              | none => exact ihq acc
              | some u =>
                rcases acc with ⟨an, al⟩
                by_cases hu : u < al
                · have : regSelectStep (some (an, al)) (qn, some u) =
                      some (qn, u) := by simp [regSelectStep, hu]
                  rw [List.foldl_cons, this]; exact ihq _
                · have : regSelectStep (some (an, al)) (qn, some u) =
                      some (an, al) := by simp [regSelectStep, hu]
                  rw [List.foldl_cons, this]; exact ihq _
          exact this (m, v) rest h
        · intro h
          have := h (m, some v) (List.mem_cons_self _ _)
          simp at this
  · rw [fit_best_regressor_select, fit_best_regressor_select,
      List.foldl_append, List.foldl_append, List.foldl_cons]
    rfl
  · rw [fit_best_regressor_warnings, fit_best_regressor_warnings,
      List.filterMap_append]
    rfl

/-! ## Stability-adjusted selection scores
(`stability_adjusted_regression_loss` lines 138-145,
`stability_adjusted_classification_score` lines 148-155, and the
per-candidate score computation inside `fit_best_regressor` lines 416-434
and `fit_best_classifier` lines 501-531). -/

/-- A `{"mean": ..., "std": ...}` entry produced by `_mean_std`:
both fields are `None` when no fold values were collected. -/
structure MeanStd where
  mean : Option ℚ
  std : Option ℚ
deriving DecidableEq

/-- The walk-forward `metrics` dict, restricted to the two entries these
scoring functions read (`metrics.get("mae", {})` / `metrics.get("f1", {})`;
the rmse/r2/accuracy/precision/recall/roc_auc entries are never read by
them).  A `none` field models an absent key, for which the source
substitutes the empty dict `{}` whose `.get("mean")` is `None`. -/
structure WalkForwardMetrics where
  mae : Option MeanStd
  f1 : Option MeanStd
deriving DecidableEq

/-- Embedding of `stability_adjusted_regression_loss`: `None` when the
mae mean is absent, else `mean + 0.25 * std` where an absent std counts
as `0.0` (the Python `or 0.0` also maps an exact `0.0` to `0.0`). -/
def stability_adjusted_regression_loss (metrics : WalkForwardMetrics) :
    Option ℚ :=
  let mae_metrics := metrics.mae.getD ⟨none, none⟩
  match mae_metrics.mean with
  | none => none
  | some mae_mean => some (mae_mean + 0.25 * mae_metrics.std.getD 0)

/-- Embedding of `stability_adjusted_classification_score`: `None` when
the f1 mean is absent, else `mean - 0.10 * std`. -/
def stability_adjusted_classification_score (metrics : WalkForwardMetrics) :
    Option ℚ :=
  let f1_metrics := metrics.f1.getD ⟨none, none⟩
  match f1_metrics.mean with
  | none => none
  | some f1_mean => some (f1_mean - 0.10 * f1_metrics.std.getD 0)

/-- The per-candidate regression selection score and mode (lines 416-434):
starts from the holdout MAE in mode `holdout_mae`; when walk-forward folds
exist (`walk_forward ≠ none`), at least 2 ran, and the stability-adjusted
loss is defined, that loss is used in mode `walk_forward_stability`. -/
def regression_selection (mae_score : ℚ)
    (walk_forward : Option (Nat × WalkForwardMetrics)) : ℚ × String :=
  match walk_forward with
  | none => (mae_score, "holdout_mae")
  | some (folds_run, metrics) =>
    if 2 ≤ folds_run then
      match stability_adjusted_regression_loss metrics with
      | some stable_loss => (stable_loss, "walk_forward_stability")
      | none => (mae_score, "holdout_mae")
    else (mae_score, "holdout_mae")

/-- The per-candidate classification selection score and mode
(lines 501-531), dually using the holdout F1 and the stability-adjusted
score. -/
def classification_selection (f1_score : ℚ)
    (walk_forward : Option (Nat × WalkForwardMetrics)) : ℚ × String :=
  match walk_forward with
  | none => (f1_score, "holdout_f1")
  | some (folds_run, metrics) =>
    if 2 ≤ folds_run then
      match stability_adjusted_classification_score metrics with
      | some stable_score => (stable_score, "walk_forward_stability")
      | none => (f1_score, "holdout_f1")
    else (f1_score, "holdout_f1")

/-- C3: a candidate's selection score is the holdout MAE (regression) or
holdout F1 (classification) unless at least two walk-forward folds ran and
the fold statistics are present, in which case it is `mean + 0.25 * std`
(regression) resp. `mean - 0.10 * std` (classification); and the two
concrete evaluations from the spec:
`stability_adjusted_regression_loss` on mae mean 10, std 2 gives 10.5, and
`stability_adjusted_classification_score` on f1 mean 0.8, std 0.1 gives
0.79. -/
theorem selection_score_stability_adjusted :
    stability_adjusted_regression_loss ⟨some ⟨some 10, some 2⟩, none⟩ =
      some 10.5 ∧
    stability_adjusted_classification_score ⟨none, some ⟨some 0.8, some 0.1⟩⟩ =
      some 0.79 ∧
    (∀ (mae mean std : ℚ) (fr : Nat) (f1m : Option MeanStd), 2 ≤ fr →
      regression_selection mae (some (fr, ⟨some ⟨some mean, some std⟩, f1m⟩)) =
        (mean + 0.25 * std, "walk_forward_stability")) ∧
    (∀ (mae : ℚ) (fr : Nat) (wfm : WalkForwardMetrics), fr < 2 →
      regression_selection mae (some (fr, wfm)) = (mae, "holdout_mae")) ∧
    (∀ mae : ℚ, regression_selection mae none = (mae, "holdout_mae")) ∧
    (∀ (f1 mean std : ℚ) (fr : Nat) (maem : Option MeanStd), 2 ≤ fr →
      classification_selection f1 (some (fr, ⟨maem, some ⟨some mean, some std⟩⟩)) =
        (mean - 0.10 * std, "walk_forward_stability")) ∧
    (∀ (f1 : ℚ) (fr : Nat) (wfm : WalkForwardMetrics), fr < 2 →
      classification_selection f1 (some (fr, wfm)) = (f1, "holdout_f1")) ∧
    (∀ f1 : ℚ, classification_selection f1 none = (f1, "holdout_f1")) := by
  refine ⟨?_, ?_, ?_, ?_, ?_, ?_, ?_, ?_⟩
  · show some ((10 : ℚ) + 0.25 * 2) = some 10.5
    norm_num
  · show some ((0.8 : ℚ) - 0.10 * 0.1) = some 0.79
    norm_num
  · intro mae mean std fr f1m h2
    simp [regression_selection, stability_adjusted_regression_loss, h2]
  · intro mae fr wfm hlt
    have : ¬ (2 ≤ fr) := by omega
    simp [regression_selection, this]
  · intro mae; rfl
  · intro f1 mean std fr maem h2
    simp [classification_selection, stability_adjusted_classification_score, h2]
  · intro f1 fr wfm hlt
    have : ¬ (2 ≤ fr) := by omega
    simp [classification_selection, this]
  · intro f1; rfl

/-! ## Relay quality gate (`evaluate_relay_quality_gate`,
train_models.py lines 65-99)

Label series are lists of `Option ℚ` (`none` = NaN, dropped by
`dropna=True`).  The returned summary dict only restates
`min_class_count`, the per-split counts and the same `passed`/`issues`
values, so the embedding returns the `(passed, issues)` part of the
source's triple. -/

/-- `series.value_counts(dropna=True).to_dict().get(v, 0)`: how many
non-null entries equal `v`. -/
def value_count (labels : List (Option ℚ)) (v : ℚ) : Nat :=
  (labels.filterMap id).count v

/-- `len(series.dropna().unique())`: the number of distinct non-null
labels. -/
def distinct_classes (labels : List (Option ℚ)) : Nat :=
  (labels.filterMap id).dedup.length

/-- One iteration of the `for class_label in (0, 1)` loop (lines 83-89):
the issues contributed by `class_label` for the train and validation
splits. -/
def class_count_issues (train_y valid_y : List (Option ℚ))
    (min_class_count : Int) (class_label : Nat) : List String :=
  (if (value_count train_y class_label : Int) < min_class_count then
    ["train class " ++ toString class_label ++ " count too low (" ++
      toString (value_count train_y (class_label : ℚ) : Int) ++ " < " ++
      toString min_class_count ++ ")"]
  else []) ++
  (if (value_count valid_y class_label : Int) < min_class_count then
    ["validation class " ++ toString class_label ++ " count too low (" ++
      toString (value_count valid_y (class_label : ℚ) : Int) ++ " < " ++
      toString min_class_count ++ ")"]
  else [])

/-- Embedding of `evaluate_relay_quality_gate`: the issue list collects
the single-class checks for each split followed by the per-class count
checks for class 0 then class 1; the gate passes iff no issue was
recorded. -/
def evaluate_relay_quality_gate (train_y valid_y : List (Option ℚ))
    (min_class_count : Int) : Bool × List String :=
  let issues :=
    (if distinct_classes train_y < 2 then ["train split has a single class"]
     else []) ++
    (if distinct_classes valid_y < 2 then
      ["validation split has a single class"]
     else []) ++
    class_count_issues train_y valid_y min_class_count 0 ++
    class_count_issues train_y valid_y min_class_count 1
  (issues.isEmpty, issues)

/-- The spec's concrete gate input: train labels `{0:12, 1:3}`. -/
def gateTrainLabels : List (Option ℚ) :=
  List.replicate 12 (some 0) ++ List.replicate 3 (some 1)

/-- The spec's concrete gate input: validation labels `{0:8, 1:1}`. -/
def gateValidLabels : List (Option ℚ) :=
  List.replicate 8 (some 0) ++ List.replicate 1 (some 1)

/-- C6: the relay quality gate returns `passed = False` together with a
non-empty itemized issue list exactly when either split has fewer than
two distinct classes or one of the binary classes 0/1 occurs fewer than
`min_class_count` times in one of the splits; and on train labels
`{0:12, 1:3}`, validation labels `{0:8, 1:1}` with `min_class_count = 5`
it fails with exactly the two issues naming the class-1 shortfall in each
split. -/
theorem quality_gate_fails_iff_class_imbalance
    (train_y valid_y : List (Option ℚ)) (m : Int) :
    ((evaluate_relay_quality_gate train_y valid_y m).1 = false ↔
      (evaluate_relay_quality_gate train_y valid_y m).2 ≠ []) ∧
    ((evaluate_relay_quality_gate train_y valid_y m).1 = false ↔
      (distinct_classes train_y < 2 ∨ distinct_classes valid_y < 2 ∨
        (value_count train_y 0 : Int) < m ∨ (value_count valid_y 0 : Int) < m ∨
        (value_count train_y 1 : Int) < m ∨ (value_count valid_y 1 : Int) < m)) ∧
    (evaluate_relay_quality_gate gateTrainLabels gateValidLabels 5 =
      (false, ["train class 1 count too low (3 < 5)",
               "validation class 1 count too low (1 < 5)"]) ∧
      "train class 1 count too low (3 < 5)" ∈
        (evaluate_relay_quality_gate gateTrainLabels gateValidLabels 5).2 ∧
      "validation class 1 count too low (1 < 5)" ∈
        (evaluate_relay_quality_gate gateTrainLabels gateValidLabels 5).2) := by
  refine ⟨?_, ?_, by decide⟩
  · simp only [evaluate_relay_quality_gate, class_count_issues]
    split_ifs <;> simp_all
  · simp only [evaluate_relay_quality_gate, class_count_issues]
    split_ifs <;> simp_all

/-! ## Insufficient-data gate (`train_pipeline`, train_models.py
lines 577-581) -/

/-- The fixed `minimum_rows` threshold of `train_pipeline`. -/
def minimum_rows : Nat := 40

/-- Embedding of the supervised-row-count check of `train_pipeline`:
raises `ValueError` (the spec's `InsufficientData`) when fewer than
`minimum_rows` supervised rows are available, with the source's message. -/
def train_pipeline_row_gate (n : Nat) : Except String Unit :=
  if n < minimum_rows then
    .error ("Need at least " ++ toString minimum_rows ++
      " usable rows for stable training, found " ++ toString n ++ ".")
  else .ok ()

/-- C9: the orchestrator's data gate fails exactly when the supervised
dataset has fewer than 40 rows, and the error message names both the
required minimum (40) and the measured row count. -/
theorem insufficient_data_iff_under_40 (n : Nat) :
    ((∃ msg, train_pipeline_row_gate n = .error msg) ↔ n < minimum_rows) ∧
    (∀ msg, train_pipeline_row_gate n = .error msg →
      (∃ pre post, msg = pre ++ toString minimum_rows ++ post) ∧
      (∃ pre post, msg = pre ++ toString n ++ post)) ∧
    minimum_rows = 40 := by
  refine ⟨⟨?_, ?_⟩, ?_, rfl⟩
  · rintro ⟨msg, hmsg⟩
    by_contra hge
    simp [train_pipeline_row_gate, hge] at hmsg
  · intro hlt
    exact ⟨"Need at least " ++ toString minimum_rows ++
      " usable rows for stable training, found " ++ toString n ++ ".",
      by simp [train_pipeline_row_gate, hlt]⟩
  · intro msg hmsg
    by_cases hlt : n < minimum_rows
    · simp only [train_pipeline_row_gate, if_pos hlt, Except.error.injEq] at hmsg
      subst hmsg
      constructor
      · exact ⟨"Need at least ", " usable rows for stable training, found " ++
          toString n ++ ".", rfl⟩
      · refine ⟨"Need at least " ++ toString minimum_rows ++
          " usable rows for stable training, found ", ".", ?_⟩
        rw [String.append_assoc, String.append_assoc]
    · simp [train_pipeline_row_gate, hlt] at hmsg

/-! ## Report sanitizer (`sanitize_metrics`, train_models.py lines 41-51) -/

/-- A Python float: finite, or one of the non-finite values NaN / +inf /
-inf that `np.isfinite` rejects. -/
inductive PyFloat where
  | finite (q : ℚ)
  | nan
  | inf
  | ninf
deriving DecidableEq

/-- `np.isfinite`. -/
def PyFloat.isfinite : PyFloat → Bool
  | .finite _ => true
  | _ => false

/-- A report value: `None`, a bool, an int, a string, a float, a list, or
a string-keyed dict — the shapes `sanitize_value` distinguishes. -/
inductive ReportValue where
  | vnull
  | vbool (b : Bool)
  | vint (n : Int)
  | vstr (s : String)
  | vfloat (f : PyFloat)
  | vlist (items : List ReportValue)
  | vdict (entries : List (String × ReportValue))

mutual

/-- The inner `sanitize_value` of `sanitize_metrics`: recurses through
dicts and lists, replaces every non-finite float by `None`, and leaves
everything else unchanged. -/
def sanitize_value : ReportValue → ReportValue
  | .vdict entries => .vdict (sanitizeEntries entries)
  | .vlist items => .vlist (sanitizeItems items)
  | .vfloat f => if f.isfinite then .vfloat f else .vnull
  | v => v

/-- The dict comprehension `{key: sanitize_value(item) ...}`. -/
def sanitizeEntries : List (String × ReportValue) → List (String × ReportValue)
  | [] => []
  | (k, v) :: rest => (k, sanitize_value v) :: sanitizeEntries rest

/-- The list comprehension `[sanitize_value(item) ...]`. -/
def sanitizeItems : List ReportValue → List ReportValue
  | [] => []
  | v :: rest => sanitize_value v :: sanitizeItems rest

end

/-- Embedding of `sanitize_metrics`: applies `sanitize_value` to the
report. -/
def sanitize_metrics : ReportValue → ReportValue := sanitize_value

mutual

theorem sanitize_value_idem : ∀ v : ReportValue,
    sanitize_value (sanitize_value v) = sanitize_value v
  | .vnull => rfl
  | .vbool _ => rfl
  | .vint _ => rfl
  | .vstr _ => rfl
  | .vfloat f => by cases f <;> rfl
  | .vlist items =>
    congrArg ReportValue.vlist (sanitizeItems_idem items)
  | .vdict entries =>
    congrArg ReportValue.vdict (sanitizeEntries_idem entries)

theorem sanitizeEntries_idem : ∀ entries : List (String × ReportValue),
    sanitizeEntries (sanitizeEntries entries) = sanitizeEntries entries
  | [] => rfl
  | (k, v) :: rest => by
    show (k, sanitize_value (sanitize_value v)) ::
        sanitizeEntries (sanitizeEntries rest) = _
    rw [sanitize_value_idem v, sanitizeEntries_idem rest]
    rfl

theorem sanitizeItems_idem : ∀ items : List ReportValue,
    sanitizeItems (sanitizeItems items) = sanitizeItems items
  | [] => rfl
  | v :: rest => by
    show sanitize_value (sanitize_value v) ::
        sanitizeItems (sanitizeItems rest) = _
    rw [sanitize_value_idem v, sanitizeItems_idem rest]
    rfl

end

/-- C10: `sanitize_metrics` is idempotent on every (arbitrarily nested)
report value, because one pass replaces each non-finite float by the
absent marker `None` and every value it can produce is a fixed point. -/
theorem sanitize_metrics_idempotent :
    (∀ r : ReportValue, sanitize_metrics (sanitize_metrics r) =
      sanitize_metrics r) ∧
    (∀ f : PyFloat, f.isfinite = false →
      sanitize_metrics (.vfloat f) = .vnull) := by
  refine ⟨sanitize_value_idem, ?_⟩
  intro f hf
  show sanitize_value (.vfloat f) = .vnull
  cases f <;> simp_all [PyFloat.isfinite, sanitize_value]

/-! ## Supervised frame builder (`make_supervised_data`,
ml_pipeline.py lines 126-146)

A frame is a column list plus per-row association lists of cells; a cell
value `none` models NaN.  `series.shift(-h)` moves each value `h` rows
earlier and pads the tail with NaN; `.loc[mask]` keeps the rows whose
mask entry is true. -/

/-- One row of a frame: column name ↦ value (`none` = NaN). -/
abbrev RowCells := List (String × Option ℚ)

/-- A pandas DataFrame for the supervised-frame builder. -/
structure FeatureFrame where
  cols : List String
  rows : List RowCells
deriving DecidableEq

/-- The value of column `c` in row `r` (`none` when the cell is NaN or
absent). -/
def cellVal (r : RowCells) (c : String) : Option ℚ :=
  (r.lookup c).join

/-- Column `c` of the frame as a series. -/
def colSeries (frame : FeatureFrame) (c : String) : List (Option ℚ) :=
  frame.rows.map (fun r => cellVal r c)

/-- `series.shift(-h)`: the value `h` rows ahead, NaN past the end. -/
def shift_neg (vals : List (Option ℚ)) (h : Nat) : List (Option ℚ) :=
  vals.drop h ++ List.replicate (min h vals.length) none

/-- `.loc[mask]`: keeps the entries whose mask bit is true. -/
def maskFilter {α : Type} (xs : List α) (mask : List Bool) : List α :=
  ((xs.zip mask).filter (fun p => p.2)).map (fun p => p.1)

/-- Removes the timestamp cell from a row
(`drop(columns=["timestamp"], errors="ignore")`). -/
def dropTimestampCell (r : RowCells) : RowCells :=
  r.filter (fun cell => cell.1 != "timestamp")

/-- Embedding of `make_supervised_data`: fails on `horizon_steps < 1`
and on missing target columns; otherwise shifts the two target series by
`-horizon_steps`, keeps the rows where both shifted targets are present,
and drops the timestamp column from the returned feature matrix. -/
def make_supervised_data (frame : FeatureFrame) (horizon_steps : Int) :
    Except String (FeatureFrame × List ℚ × List ℚ) :=
  if horizon_steps < 1 then .error "horizon_steps must be >= 1"
  else if ¬ ("light_lux" ∈ frame.cols ∧ "relay_light" ∈ frame.cols) then
    .error "Dataset requires light_lux and relay_light columns for targets."
  else
    let h := horizon_steps.toNat
    let target_light := shift_neg (colSeries frame "light_lux") h
    let target_relay := shift_neg (colSeries frame "relay_light") h
    let target_mask :=
      List.zipWith (fun a b : Option ℚ => a.isSome && b.isSome)
        target_light target_relay
    .ok (⟨frame.cols.filter (fun c => c != "timestamp"),
          (maskFilter frame.rows target_mask).map dropTimestampCell⟩,
         (maskFilter target_light target_mask).filterMap id,
         (maskFilter target_relay target_mask).filterMap id)

lemma zipWith_map_same {α β γ δ : Type} (f : β → γ → δ) (g : α → β)
    (h : α → γ) : ∀ l : List α,
    List.zipWith f (l.map g) (l.map h) = l.map (fun x => f (g x) (h x))
  | [] => rfl
  | x :: xs => by
    simp only [List.map_cons, List.zipWith_cons_cons,
      zipWith_map_same f g h xs]

lemma zipWith_isSome_replicate_none (k : Nat) :
    List.zipWith (fun a b : Option ℚ => a.isSome && b.isSome)
      (List.replicate k none) (List.replicate k none) =
      List.replicate k false := by
  induction k with
  | zero => rfl
  | succ m ih => simp [List.replicate_succ, ih]

lemma map_eq_replicate_true {α : Type} (p : α → Bool) (l : List α)
    (h : ∀ x ∈ l, p x = true) :
    l.map p = List.replicate l.length true := by
  induction l with
  | nil => rfl
  | cons x xs ih =>
    simp only [List.map_cons, List.length_cons, List.replicate_succ]
    rw [h x (List.mem_cons_self _ _), ih fun y hy => h y (List.mem_cons_of_mem _ hy)]

lemma maskFilter_append {α : Type} (xs ys : List α) (m₁ m₂ : List Bool)
    (hlen : xs.length = m₁.length) :
    maskFilter (xs ++ ys) (m₁ ++ m₂) = maskFilter xs m₁ ++ maskFilter ys m₂ := by
  unfold maskFilter
  rw [List.zip_append hlen, List.filter_append, List.map_append]

lemma maskFilter_replicate_true {α : Type} :
    ∀ (xs : List α) (k : Nat), xs.length = k →
      maskFilter xs (List.replicate k true) = xs := by
  intro xs
  induction xs with
  | nil => intro k _; simp [maskFilter]
  | cons x l ih =>
    intro k hk
    cases k with
    | zero => simp at hk
    | succ m =>
      have hm : l.length = m := by simpa using hk
      have hstep : maskFilter (x :: l) (List.replicate (m + 1) true) =
          x :: maskFilter l (List.replicate m true) := by
        simp [maskFilter, List.replicate_succ]
      rw [hstep, ih m hm]

lemma maskFilter_replicate_false {α : Type} (xs : List α) (k : Nat) :
    maskFilter xs (List.replicate k false) = [] := by
  induction xs generalizing k with
  | nil => simp [maskFilter]
  | cons x l ih =>
    cases k with
    | zero => simp [maskFilter]
    | succ m =>
      have hstep : maskFilter (x :: l) (List.replicate (m + 1) false) =
          maskFilter l (List.replicate m false) := by
        simp [maskFilter, List.replicate_succ]
      rw [hstep, ih m]

lemma filterMap_id_map {α β : Type} (f : α → Option β) (l : List α) :
    (l.map f).filterMap id = l.filterMap f := by
  induction l with
  | nil => rfl
  | cons x xs ih => cases h : f x <;> simp [List.filterMap_cons, h, ih]

/-- The 2-row frame witnessing that missing target values break the
"exactly N-1 rows" count: the second row's `light_lux` is NaN. -/
def missingValueFrame : FeatureFrame :=
  ⟨["light_lux", "relay_light"],
   [[("light_lux", some 100), ("relay_light", some 0)],
    [("light_lux", none), ("relay_light", some 1)]]⟩

/-- C4, counterexample: on a 2-row frame containing both target columns
but whose second row has a NaN `light_lux`, `make_supervised_data` with
`horizon_steps = 1` keeps 0 rows, not `N - 1 = 1` — the claim's
unconditional "exactly N-1 supervised rows" fails when target values are
missing. -/
theorem supervised_count_fails_on_missing_values :
    make_supervised_data missingValueFrame 1 =
      .ok (⟨["light_lux", "relay_light"], []⟩, [], []) ∧
    missingValueFrame.rows.length - 1 = 1 :=
  ⟨rfl, rfl⟩

/-- C4 (amended): `make_supervised_data` fails with the `InvalidHorizon`
error whenever `horizon_steps < 1` (in particular at 0); and on any
N-row frame that contains the `light_lux` and `relay_light` columns
*with no missing values in them*, `horizon_steps = 1` returns exactly
`N-1` supervised rows — the first `N-1` frame rows with the timestamp
column removed — paired positionally with the light and relay values of
the row one step ahead. -/
theorem make_supervised_horizon_and_count (frame : FeatureFrame) (h : Int) :
    (h < 1 → make_supervised_data frame h =
      .error "horizon_steps must be >= 1") ∧
    ("light_lux" ∈ frame.cols → "relay_light" ∈ frame.cols →
      (∀ r ∈ frame.rows, (cellVal r "light_lux").isSome ∧
        (cellVal r "relay_light").isSome) →
      make_supervised_data frame 1 =
        .ok (⟨frame.cols.filter (fun c => c != "timestamp"),
              (frame.rows.take (frame.rows.length - 1)).map dropTimestampCell⟩,
             (frame.rows.drop 1).filterMap (fun r => cellVal r "light_lux"),
             (frame.rows.drop 1).filterMap (fun r => cellVal r "relay_light")) ∧
      ∀ out, make_supervised_data frame 1 = .ok out →
        out.1.rows.length = frame.rows.length - 1 ∧
        "timestamp" ∉ out.1.cols ∧
        ∀ r ∈ out.1.rows, ∀ cell ∈ r, cell.1 ≠ "timestamp") := by
  constructor
  · intro hlt
    simp [make_supervised_data, hlt]
  · intro hlight hrelay hpresent
    have hcols : ¬ ¬ ("light_lux" ∈ frame.cols ∧ "relay_light" ∈ frame.cols) :=
      not_not_intro ⟨hlight, hrelay⟩
    have hone : ¬ ((1 : Int) < 1) := by norm_num
    set n := frame.rows.length with hn
    -- the combined presence mask is n-1 `true`s followed by one `false`
    -- (nothing when the frame is empty)
    have hpres' : ∀ r ∈ frame.rows.drop 1,
        ((cellVal r "light_lux").isSome && (cellVal r "relay_light").isSome)
          = true := by
      intro r hr
      rcases hpresent r (List.mem_of_mem_drop hr) with ⟨h1, h2⟩
      rw [h1, h2]
      rfl
    have hmask :
        List.zipWith (fun a b : Option ℚ => a.isSome && b.isSome)
          (shift_neg (colSeries frame "light_lux") 1)
          (shift_neg (colSeries frame "relay_light") 1) =
        List.replicate (n - 1) true ++ List.replicate (min 1 n) false := by
      unfold shift_neg colSeries
      simp only [List.length_map]
      rw [← List.map_drop, ← List.map_drop,
        List.zipWith_append _ _ _ _ _ (by simp),
        zipWith_map_same, zipWith_isSome_replicate_none,
        map_eq_replicate_true _ _ hpres', List.length_drop]
    have hlen_take : (frame.rows.take (n - 1)).length = n - 1 := by
      simp [hn]
    have hrows :
        maskFilter frame.rows
          (List.replicate (n - 1) true ++ List.replicate (min 1 n) false) =
        frame.rows.take (n - 1) := by
      conv_lhs => rw [← List.take_append_drop (n - 1) frame.rows]
      rw [maskFilter_append _ _ _ _ (by rw [hlen_take, List.length_replicate]),
        maskFilter_replicate_true _ _ hlen_take, maskFilter_replicate_false,
        List.append_nil]
    have htargets : ∀ c : String,
        maskFilter (shift_neg (colSeries frame c) 1)
          (List.replicate (n - 1) true ++ List.replicate (min 1 n) false) =
        (frame.rows.drop 1).map (fun r => cellVal r c) := by
      intro c
      unfold shift_neg colSeries
      rw [← List.map_drop]
      have hlen₁ : ((frame.rows.drop 1).map (fun r => cellVal r c)).length
          = n - 1 := by simp [hn]
      rw [maskFilter_append _ _ _ _ (by rw [hlen₁, List.length_replicate]),
        maskFilter_replicate_true _ _ hlen₁, maskFilter_replicate_false,
        List.append_nil]
    have heq : make_supervised_data frame 1 = .ok
        (⟨frame.cols.filter (fun c => c != "timestamp"),
          (frame.rows.take (n - 1)).map dropTimestampCell⟩,
         (frame.rows.drop 1).filterMap (fun r => cellVal r "light_lux"),
         (frame.rows.drop 1).filterMap (fun r => cellVal r "relay_light")) := by
      unfold make_supervised_data
      rw [if_neg hone, if_neg hcols]
      simp only [Int.toNat_one, hmask, hrows, htargets, filterMap_id_map]
    refine ⟨heq, ?_⟩
    intro out hout
    rw [heq] at hout
    have houtval := ((Except.ok.injEq _ _).mp hout).symm
    subst houtval
    refine ⟨by simp [hn], by simp, ?_⟩
    intro r hr cell hcell
    rcases List.mem_map.mp hr with ⟨r₀, _, hr₀⟩
    subst hr₀
    unfold dropTimestampCell at hcell
    have := List.of_mem_filter hcell
    simpa using this

/-! ## Dataset normalizer (`prepare_dataframe`, ml_pipeline.py lines 48-71)

A raw row carries its timestamp after `pd.to_datetime(..., errors="coerce")`
(`none` models NaT for unparseable input) plus the remaining cells as
numeric-or-NaN values (`_to_numeric` maps unparseable text to NaN, which
the `Option ℚ` representation absorbs; ℚ has no infinities, so the
±inf → NaN replacement of lines 64-66 is the identity here).

`sort_values("timestamp")` uses pandas' default `kind='quicksort'`, which
is documented as not stable: the relative order of rows with equal
timestamps in the sorted frame is not specified.  The embedding therefore
does not pick a sort algorithm; it takes the sorted row sequence as a
parameter constrained by exactly the contract `sort_values` guarantees —
a permutation of the input, sorted by timestamp (`IsTimestampSort`) —
and every theorem about the normalizer quantifies over all sequences
satisfying that contract. -/

def BASE_NUMERIC_COLUMNS : List String :=
  ["temp_c", "humidity_pct", "soil_adc", "light_lux",
   "threshold_temp_on", "threshold_soil_dry", "threshold_light_lux"]

def BASE_BINARY_COLUMNS : List String :=
  ["flame_detected", "ir_detected", "relay_fan", "relay_pump",
   "relay_light", "relay_buzzer", "automation_on"]

/-- One raw observation row. -/
structure Row where
  timestamp : Option Int
  cells : List (String × Option ℚ)
deriving DecidableEq

/-- A raw frame: column list plus rows. -/
structure RawFrame where
  cols : List String
  rows : List Row
deriving DecidableEq

/-- `clip(lower=0, upper=1)` on one cell: NaN stays NaN, a number is
clamped into the interval `[0, 1]`. -/
def clipCell (v : Option ℚ) : Option ℚ :=
  v.map fun x => min 1 (max 0 x)

/-- The column coercion block (lines 57-66) on one row: binary columns
present in the frame are clipped into `[0, 1]`; numeric coercion and the
±inf replacement are identities in this value model. -/
def coerceRow (cols : List String) (r : Row) : Row :=
  { r with
    cells := r.cells.map fun cell =>
      if BASE_BINARY_COLUMNS.contains cell.1 && cols.contains cell.1 then
        (cell.1, clipCell cell.2)
      else cell }

/-- The timestamp order used by `sort_values("timestamp")`; every row
reaching the sort has a parsed timestamp, so the `getD` default is inert. -/
def tsLE (a b : Row) : Prop := a.timestamp.getD 0 ≤ b.timestamp.getD 0

instance : DecidableRel tsLE := fun a b =>
  inferInstanceAs (Decidable (a.timestamp.getD 0 ≤ b.timestamp.getD 0))

/-- The contract `sort_values("timestamp")` guarantees for its output:
a permutation of the input that is sorted by timestamp.  The default
`kind='quicksort'` is not stable, so nothing more is guaranteed about
the order of rows with equal timestamps. -/
def IsTimestampSort (input sorted : List Row) : Prop :=
  List.Perm input sorted ∧ List.Sorted tsLE sorted

/-- `drop_duplicates(subset=["timestamp"], keep="last")`: a row is kept
iff no later row carries an equal timestamp. -/
def dropDupLast : List Row → List Row
  | [] => []
  | r :: rest =>
    if rest.any (fun s => s.timestamp == r.timestamp) then dropDupLast rest
    else r :: dropDupLast rest

/-- Embedding of `prepare_dataframe` modulo the sort's tie order: given
any `sorted` sequence (the theorems constrain it by `IsTimestampSort`
relative to the timestamp-filtered rows), requires a timestamp column,
applies the column coercions to the sorted rows, and drops duplicate
timestamps keeping the last occurrence in the sorted order (the dense
0-based reindex is implicit in the list representation). -/
def prepare_dataframe_from_sorted (frame : RawFrame) (sorted : List Row) :
    Except String RawFrame :=
  if "timestamp" ∈ frame.cols then
    .ok ⟨frame.cols, dropDupLast (sorted.map (coerceRow frame.cols))⟩
  else .error "Dataset must include a timestamp column."

lemma dropDupLast_sublist : ∀ l : List Row, List.Sublist (dropDupLast l) l
  | [] => List.Sublist.refl []
  | r :: rest => by
    simp only [dropDupLast]
    split
    · exact (dropDupLast_sublist rest).trans (List.sublist_cons_self r rest)
    · exact (dropDupLast_sublist rest).cons₂ r

lemma dropDupLast_pairwise_ne : ∀ l : List Row,
    (dropDupLast l).Pairwise (fun a b => a.timestamp ≠ b.timestamp)
  | [] => List.Pairwise.nil
  | r :: rest => by
    simp only [dropDupLast]
    split
    · exact dropDupLast_pairwise_ne rest
    · rename_i hany
      refine List.Pairwise.cons ?_ (dropDupLast_pairwise_ne rest)
      intro s hs
      have hs' : s ∈ rest := (dropDupLast_sublist rest).mem hs
      have hfalse : (rest.any fun s => s.timestamp == r.timestamp) = false :=
        Bool.eq_false_iff.mpr hany
      intro heq
      exact (List.any_eq_false.mp hfalse s hs') (beq_iff_eq.mpr heq.symm)

lemma dropDupLast_filter_getLast (t : Int) : ∀ l : List Row,
    (dropDupLast l).filter (fun r => r.timestamp == some t) =
      ((l.filter fun r => r.timestamp == some t).getLast?).toList
  | [] => rfl
  | r :: rest => by
    by_cases hr : (r.timestamp == some t) = true
    · have hrt : r.timestamp = some t := beq_iff_eq.mp hr
      by_cases hany : (rest.any fun s => s.timestamp == r.timestamp) = true
      · have hne : rest.filter (fun s => s.timestamp == some t) ≠ [] := by
          rcases List.any_eq_true.mp hany with ⟨s, hs, hst⟩
          intro hnil
          have := List.filter_eq_nil_iff.mp hnil s hs
          rw [hrt] at hst
          exact this hst
        have hstep : dropDupLast (r :: rest) = dropDupLast rest := by
          simp only [dropDupLast]
          rw [if_pos hany]
        rw [hstep, dropDupLast_filter_getLast t rest, List.filter_cons,
          if_pos hr]
        rcases hlist : rest.filter (fun s => s.timestamp == some t) with
          _ | ⟨b, l⟩
        · exact absurd hlist hne
        · rw [hlist]
          rfl
      · have hnil : rest.filter (fun s => s.timestamp == some t) = [] := by
          apply List.filter_eq_nil_iff.mpr
          intro s hs hst
          apply List.any_eq_false.mp (Bool.eq_false_iff.mpr hany) s hs
          rw [hrt]
          exact hst
        have hstep : dropDupLast (r :: rest) = r :: dropDupLast rest := by
          simp only [dropDupLast]
          rw [if_neg hany]
        have hsub := (dropDupLast_sublist rest).filter
          (fun s => s.timestamp == some t)
        rw [hnil] at hsub
        have hsubnil := List.sublist_nil.mp hsub
        rw [hstep, List.filter_cons, if_pos hr, hsubnil, List.filter_cons,
          if_pos hr, hnil]
        rfl
    · have hfilter : (r :: rest).filter (fun s => s.timestamp == some t) =
          rest.filter (fun s => s.timestamp == some t) := by
        rw [List.filter_cons, if_neg hr]
      by_cases hany : (rest.any fun s => s.timestamp == r.timestamp) = true
      · have hstep : dropDupLast (r :: rest) = dropDupLast rest := by
          simp only [dropDupLast]
          rw [if_pos hany]
        rw [hstep, dropDupLast_filter_getLast t rest, hfilter]
      · have hstep : dropDupLast (r :: rest) = r :: dropDupLast rest := by
          simp only [dropDupLast]
          rw [if_neg hany]
        rw [hstep, List.filter_cons, if_neg hr,
          dropDupLast_filter_getLast t rest, hfilter]

lemma filter_tsEq_map_coerce (cols : List String) (t : Int) :
    ∀ l : List Row,
      (l.map (coerceRow cols)).filter (fun r => r.timestamp == some t) =
        (l.filter fun r => r.timestamp == some t).map (coerceRow cols)
  | [] => rfl
  | r :: l => by
    by_cases hr : (r.timestamp == some t) = true <;>
      simp [coerceRow, List.filter_cons, hr, filter_tsEq_map_coerce cols t l]

/-- The concrete frame for the C5 counterexample: two rows share
timestamp 1, light 10 first and light 20 last in raw order. -/
def tieFrame : RawFrame :=
  ⟨["timestamp", "light_lux"],
   [⟨some 1, [("light_lux", some 10)]⟩,
    ⟨some 1, [("light_lux", some 20)]⟩]⟩

/-- The reversed tie order: sorted by timestamp and a permutation of
`tieFrame`'s rows, hence an admissible output of the non-stable
`sort_values`. -/
def tieSortedRev : List Row :=
  [⟨some 1, [("light_lux", some 20)]⟩,
   ⟨some 1, [("light_lux", some 10)]⟩]

/-- C5, counterexample: the "keeps the last occurrence in the raw input"
part is not guaranteed by the code.  `sort_values` (default
`kind='quicksort'`, documented as not stable) only promises a sorted
permutation; `tieSortedRev` is such an admissible output for `tieFrame`,
and under it `drop_duplicates(keep="last")` keeps the light-10 row — the
*first* raw occurrence — while the last raw occurrence is the (coercion-
invariant) light-20 row, a different row. -/
theorem keep_last_raw_occurrence_not_guaranteed :
    IsTimestampSort (tieFrame.rows.filter fun r => r.timestamp.isSome)
      tieSortedRev ∧
    prepare_dataframe_from_sorted tieFrame tieSortedRev =
      .ok ⟨["timestamp", "light_lux"],
           [⟨some 1, [("light_lux", some 10)]⟩]⟩ ∧
    (tieFrame.rows.filter fun r => r.timestamp == some 1).getLast? =
      some ⟨some 1, [("light_lux", some 20)]⟩ ∧
    coerceRow tieFrame.cols ⟨some 1, [("light_lux", some 20)]⟩ =
      ⟨some 1, [("light_lux", some 20)]⟩ ∧
    (⟨some 1, [("light_lux", some 10)]⟩ : Row) ≠
      ⟨some 1, [("light_lux", some 20)]⟩ :=
  ⟨⟨by decide, by decide⟩, by rfl, by rfl, by rfl, by decide⟩

/-- C5 (amended): for every raw frame accepted by the normalizer and
every admissible result of the timestamp sort, the output rows all carry
parsed timestamps; the timestamps are strictly increasing (sorted
non-decreasingly with no duplicates); for each timestamp value `t` the
output row with timestamp `t` is the coerced *last row of the sorted
order's* equal-timestamp group; every output row is the coercion of a
raw row with the same timestamp; each non-empty raw equal-timestamp
group contributes exactly one output row; and whenever the sort
preserved a group's raw order (in particular always, for groups of size
at most one) that surviving row is the coerced last raw occurrence.
Which raw occurrence survives inside a larger tied group depends on the
unstable sort's tie order and is not guaranteed to be the last raw one. -/
theorem normalizer_sorted_dedup_keeps_one_of_group
    (frame : RawFrame) (sorted : List Row) (out : RawFrame)
    (hsort : IsTimestampSort
      (frame.rows.filter fun r => r.timestamp.isSome) sorted)
    (hout : prepare_dataframe_from_sorted frame sorted = .ok out) :
    (∀ r ∈ out.rows, r.timestamp.isSome) ∧
    out.rows.Pairwise (fun a b => a.timestamp.getD 0 < b.timestamp.getD 0) ∧
    (∀ t : Int, out.rows.filter (fun r => r.timestamp == some t) =
      ((sorted.filter fun r => r.timestamp == some t).getLast?.map
        (coerceRow frame.cols)).toList) ∧
    (∀ t : Int, ∀ r ∈ out.rows, r.timestamp = some t →
      ∃ r₀ ∈ frame.rows, r₀.timestamp = some t ∧
        r = coerceRow frame.cols r₀) ∧
    (∀ t : Int, (frame.rows.filter fun r => r.timestamp == some t) ≠ [] →
      (out.rows.filter fun r => r.timestamp == some t).length = 1) ∧
    (∀ t : Int,
      (sorted.filter fun r => r.timestamp == some t) =
        (frame.rows.filter fun r => r.timestamp == some t) →
      out.rows.filter (fun r => r.timestamp == some t) =
        ((frame.rows.filter fun r => r.timestamp == some t).getLast?.map
          (coerceRow frame.cols)).toList) := by
  by_cases hts : "timestamp" ∈ frame.cols
  · have hout' : out = ⟨frame.cols,
        dropDupLast (sorted.map (coerceRow frame.cols))⟩ := by
      simp only [prepare_dataframe_from_sorted, if_pos hts,
        Except.ok.injEq] at hout
      exact hout.symm
    subst hout'
    have hsome : ∀ r ∈ dropDupLast (sorted.map (coerceRow frame.cols)),
        r.timestamp.isSome := by
      intro r hr
      have hr1 := (dropDupLast_sublist _).mem hr
      rcases List.mem_map.mp hr1 with ⟨r₀, hr₀, rfl⟩
      have hr₀' : r₀ ∈ frame.rows.filter fun r => r.timestamp.isSome :=
        hsort.1.mem_iff.mpr hr₀
      have hsome₀ : r₀.timestamp.isSome = true := (List.mem_filter.mp hr₀').2
      simpa [coerceRow] using hsome₀
    have hfiltC : ∀ t : Int,
        (dropDupLast (sorted.map (coerceRow frame.cols))).filter
          (fun r => r.timestamp == some t) =
        ((sorted.filter fun r => r.timestamp == some t).getLast?.map
          (coerceRow frame.cols)).toList := by
      intro t
      rw [dropDupLast_filter_getLast t, filter_tsEq_map_coerce,
        List.getLast?_map]
    have hrawfilt : ∀ t : Int,
        (frame.rows.filter fun r => r.timestamp.isSome).filter
          (fun r => r.timestamp == some t) =
        frame.rows.filter fun r => r.timestamp == some t := by
      intro t
      rw [List.filter_filter]
      apply List.filter_congr
      intro a _
      by_cases ha : (a.timestamp == some t) = true
      · have hsa : a.timestamp.isSome = true := by
          rw [beq_iff_eq.mp ha]
          rfl
        rw [ha, hsa]
        rfl
      · rw [Bool.eq_false_iff.mpr ha]
        rfl
    refine ⟨hsome, ?_, hfiltC, ?_, ?_, ?_⟩
    · have hcoerced :
          (sorted.map (coerceRow frame.cols)).Pairwise tsLE :=
        List.Pairwise.map _ (fun a b h => h) hsort.2
      have hle := hcoerced.sublist (dropDupLast_sublist _)
      have hne := dropDupLast_pairwise_ne (sorted.map (coerceRow frame.cols))
      refine (hle.and hne).imp_of_mem ?_
      intro a b ha hb hab
      rcases hab with ⟨hle', hne'⟩
      rcases Option.isSome_iff_exists.mp (hsome a ha) with ⟨x, hx⟩
      rcases Option.isSome_iff_exists.mp (hsome b hb) with ⟨y, hy⟩
      have hxy : x ≤ y := by
        have := hle'
        unfold tsLE at this
        rw [hx, hy] at this
        simpa using this
      have hne'' : x ≠ y := fun he => hne' (by rw [hx, hy, he])
      rw [hx, hy]
      simp only [Option.getD_some]
      omega
    · intro t r hr hrt
      have hr1 := (dropDupLast_sublist _).mem hr
      rcases List.mem_map.mp hr1 with ⟨r₀, hr₀, rfl⟩
      have hr₀' : r₀ ∈ frame.rows.filter fun r => r.timestamp.isSome :=
        hsort.1.mem_iff.mpr hr₀
      have hr₀ts : r₀.timestamp = some t := hrt
      exact ⟨r₀, (List.mem_filter.mp hr₀').1, hr₀ts, rfl⟩
    · intro t hne
      rw [hfiltC t]
      have hperm := hsort.1.filter (fun r => r.timestamp == some t)
      rw [hrawfilt t] at hperm
      have hlen := hperm.length_eq
      have hsne : (sorted.filter fun r => r.timestamp == some t) ≠ [] := by
        intro h0
        apply hne
        rw [h0] at hlen
        exact List.eq_nil_of_length_eq_zero hlen
      rcases Option.isSome_iff_exists.mp
        (List.getLast?_isSome.mpr hsne) with ⟨x, hx⟩
      rw [hx]
      rfl
    · intro t hstable
      rw [hfiltC t, hstable]
  · simp [prepare_dataframe_from_sorted, hts] at hout

/-- The concrete frame for the C5 witness: rows arrive shuffled, two of
them share timestamp 1 (light 10 first, light 20 later), and one row has
an unparseable timestamp. -/
def dupFrame : RawFrame :=
  ⟨["timestamp", "light_lux"],
   [⟨some 2, [("light_lux", some 30)]⟩,
    ⟨some 1, [("light_lux", some 10)]⟩,
    ⟨some 1, [("light_lux", some 20)]⟩,
    ⟨none, [("light_lux", some 99)]⟩]⟩

/-- One admissible result of the timestamp sort on `dupFrame`'s parseable
rows (this particular one keeps the tied group in raw order). -/
def dupSorted : List Row :=
  [⟨some 1, [("light_lux", some 10)]⟩,
   ⟨some 1, [("light_lux", some 20)]⟩,
   ⟨some 2, [("light_lux", some 30)]⟩]

/-- The normalizer output on `dupFrame` under `dupSorted`: NaT row
dropped, sorted, and of the two timestamp-1 rows only the last one in
the sorted order survives. -/
def dupFrameOut : RawFrame :=
  ⟨["timestamp", "light_lux"],
   [⟨some 1, [("light_lux", some 20)]⟩,
    ⟨some 2, [("light_lux", some 30)]⟩]⟩

/-- Witness for `normalizer_sorted_dedup_keeps_one_of_group` on
`dupFrame` with the admissible sort `dupSorted`: the timestamp-1 group
contributes exactly one output row, and it is the last of the sorted
group. -/
theorem normalizer_keeps_one_witness :
    prepare_dataframe_from_sorted dupFrame dupSorted = .ok dupFrameOut ∧
    (dupFrameOut.rows.filter fun r => r.timestamp == some 1).length = 1 ∧
    dupFrameOut.rows.filter (fun r => r.timestamp == some 1) =
      ((dupSorted.filter fun r => r.timestamp == some 1).getLast?.map
        (coerceRow dupFrame.cols)).toList :=
  ⟨by rfl,
   (normalizer_sorted_dedup_keeps_one_of_group dupFrame dupSorted
      dupFrameOut ⟨by decide, by decide⟩ (by rfl)).2.2.2.2.1 1 (by decide),
   (normalizer_sorted_dedup_keeps_one_of_group dupFrame dupSorted
      dupFrameOut ⟨by decide, by decide⟩ (by rfl)).2.2.1 1⟩

/-- The concrete frame for the C7 counterexample: a raw `flame_detected`
value of 1/2. -/
def halfBinaryFrame : RawFrame :=
  ⟨["timestamp", "flame_detected"],
   [⟨some 0, [("flame_detected", some (1/2))]⟩]⟩

/-- C7, counterexample: `clip(lower=0, upper=1)` clamps to the interval
`[0, 1]`, not to the set `{0, 1}` — a raw `flame_detected` value of 1/2
passes through the normalizer unchanged (under the only admissible sort
of its single row), and 1/2 is neither 0 nor 1. -/
theorem binary_field_half_survives_normalizer :
    IsTimestampSort
      (halfBinaryFrame.rows.filter fun r => r.timestamp.isSome)
      halfBinaryFrame.rows ∧
    prepare_dataframe_from_sorted halfBinaryFrame halfBinaryFrame.rows =
      .ok ⟨["timestamp", "flame_detected"],
           [⟨some 0, [("flame_detected", some (1/2))]⟩]⟩ ∧
    ¬ ((1 / 2 : ℚ) = 0 ∨ (1 / 2 : ℚ) = 1) := by
  refine ⟨⟨List.Perm.refl _, ?_⟩, ?_, ?_⟩
  · simp [halfBinaryFrame, List.Sorted]
  · simp [prepare_dataframe_from_sorted, dropDupLast, coerceRow, clipCell,
      BASE_BINARY_COLUMNS, halfBinaryFrame]
    norm_num
  · norm_num

/-- C7 (amended): in every row of the normalizer's output — for *every*
sorted sequence, so in particular under every admissible tie order of the
non-stable sort — each binary field (flame_detected, ir_detected,
relay_fan, relay_pump, relay_light, relay_buzzer, automation_on) that is
present with a non-missing value has that value clamped to the interval
`[0, 1]` (not the two-element set `{0, 1}`). -/
theorem binary_fields_clamped_to_unit_interval (frame : RawFrame)
    (sorted : List Row) (out : RawFrame)
    (hout : prepare_dataframe_from_sorted frame sorted = .ok out) :
    ∀ r ∈ out.rows, ∀ cell ∈ r.cells,
      cell.1 ∈ BASE_BINARY_COLUMNS → cell.1 ∈ frame.cols →
      ∀ v : ℚ, cell.2 = some v → 0 ≤ v ∧ v ≤ 1 := by
  by_cases hts : "timestamp" ∈ frame.cols
  · have hout' : out = ⟨frame.cols,
        dropDupLast (sorted.map (coerceRow frame.cols))⟩ := by
      simp only [prepare_dataframe_from_sorted, if_pos hts,
        Except.ok.injEq] at hout
      exact hout.symm
    subst hout'
    intro r hr cell hcell hbin hcol v hv
    have hr1 := (dropDupLast_sublist _).mem hr
    rcases List.mem_map.mp hr1 with ⟨r₀, _, rfl⟩
    have hcell' : cell ∈ r₀.cells.map fun cell =>
        if BASE_BINARY_COLUMNS.contains cell.1 &&
            frame.cols.contains cell.1 then
          (cell.1, clipCell cell.2)
        else cell := hcell
    rcases List.mem_map.mp hcell' with ⟨cell₀, _, hfn⟩
    by_cases hcond : (BASE_BINARY_COLUMNS.contains cell₀.1 &&
        frame.cols.contains cell₀.1) = true
    · rw [if_pos hcond] at hfn
      rcases cell₀ with ⟨c₀, w₀⟩
      rcases hfn.symm ▸ hv with hv'
      have hv'' : clipCell w₀ = some v := by
        have : cell.2 = clipCell w₀ := by rw [← hfn]
        rw [← this, hv]
      rcases Option.map_eq_some'.mp hv'' with ⟨x, _, hx⟩
      subst hx
      constructor
      · exact le_min (by norm_num) (le_max_left 0 x)
      · exact min_le_left 1 (max 0 x)
    · rw [if_neg hcond] at hfn
      subst hfn
      exfalso
      apply hcond
      rw [Bool.and_eq_true]
      exact ⟨List.elem_iff.mpr hbin, List.elem_iff.mpr hcol⟩
  · simp [prepare_dataframe_from_sorted, hts] at hout

/-- The concrete frame for the C7 witness: a raw `flame_detected` value
of 5, clipped by the normalizer to 1. -/
def clipFrame : RawFrame :=
  ⟨["timestamp", "flame_detected"],
   [⟨some 0, [("flame_detected", some 5)]⟩]⟩

/-- Witness for `binary_fields_clamped_to_unit_interval` on `clipFrame`
(sorted by its only admissible order, its single row): the clipped value
1 lies in `[0, 1]`. -/
theorem binary_fields_clamped_witness : 0 ≤ (1 : ℚ) ∧ (1 : ℚ) ≤ 1 :=
  binary_fields_clamped_to_unit_interval clipFrame clipFrame.rows
    ⟨["timestamp", "flame_detected"],
     [⟨some 0, [("flame_detected", some 1)]⟩]⟩
    (by rfl)
    ⟨some 0, [("flame_detected", some 1)]⟩ (by simp)
    ("flame_detected", some 1) (by simp)
    (by simp [BASE_BINARY_COLUMNS]) (by simp [clipFrame]) 1 rfl

/-- The concrete frame for the C4 witness: three fully-populated rows. -/
def presentFrame : FeatureFrame :=
  ⟨["timestamp", "light_lux", "relay_light"],
   [[("timestamp", some 0), ("light_lux", some 100), ("relay_light", some 0)],
    [("timestamp", some 60), ("light_lux", some 110), ("relay_light", some 1)],
    [("timestamp", some 120), ("light_lux", some 120), ("relay_light", some 1)]]⟩

/-- Witness for `make_supervised_horizon_and_count` on `presentFrame`:
3 rows with no missing target values yield exactly 2 supervised rows,
the future targets, and no timestamp column. -/
theorem make_supervised_witness :
    make_supervised_data presentFrame 1 =
      .ok (⟨["light_lux", "relay_light"],
            [[("light_lux", some 100), ("relay_light", some 0)],
             [("light_lux", some 110), ("relay_light", some 1)]]⟩,
           [110, 120], [1, 1]) :=
  (((make_supervised_horizon_and_count presentFrame 1).2
      (by decide) (by decide) (by decide)).1).trans (by rfl)

/-- Witness for `selection_score_stability_adjusted`: with 3 folds run and
mae mean 10, std 2, the selection score is 10.5 in stability mode. -/
theorem selection_score_witness :
    regression_selection 7 (some (3, ⟨some ⟨some 10, some 2⟩, none⟩)) =
      (10.5, "walk_forward_stability") := by
  have h := selection_score_stability_adjusted.2.2.1 7 10 2 3 none (by norm_num)
  rw [h]
  norm_num

/-- Witness for `quality_gate_fails_iff_class_imbalance` at the spec's
concrete gate input. -/
theorem quality_gate_witness :
    evaluate_relay_quality_gate gateTrainLabels gateValidLabels 5 =
      (false, ["train class 1 count too low (3 < 5)",
               "validation class 1 count too low (1 < 5)"]) :=
  (quality_gate_fails_iff_class_imbalance gateTrainLabels gateValidLabels
    5).2.2.1

/-- Witness for `failed_candidates_skipped_no_viable_iff_all_failed`: a
lone failed candidate produces no model, and a failed candidate in front
of a successful one contributes exactly its warning. -/
theorem failed_candidate_witness :
    fit_best_regressor_select [("hist_gradient_boosting", (none : Option ℚ))]
      = none ∧
    fit_best_regressor_warnings
        [("xgboost", (none : Option ℚ)), ("random_forest", some 2)] =
      ["Skipped regression model xgboost"] :=
  ⟨(failed_candidates_skipped_no_viable_iff_all_failed
      [("hist_gradient_boosting", none)] [] [] "x").1.mpr (by simp),
   ((failed_candidates_skipped_no_viable_iff_all_failed [] []
      [("random_forest", some 2)] "xgboost").2.2).trans (by rfl)⟩

/-- Witness for `insufficient_data_iff_under_40` at a measured count of
18 rows. -/
theorem insufficient_data_witness :
    minimum_rows = 40 ∧
    train_pipeline_row_gate 18 =
      .error "Need at least 40 usable rows for stable training, found 18." :=
  ⟨(insufficient_data_iff_under_40 18).2.2, by rfl⟩

/-- Witness for `sanitize_metrics_idempotent`: a dict holding a NaN is
sanitized to a dict holding `None`, and sanitizing twice equals
sanitizing once on a non-finite float. -/
theorem sanitize_metrics_witness :
    sanitize_metrics (.vdict [("mae", .vfloat .nan)]) =
      .vdict [("mae", .vnull)] ∧
    sanitize_metrics (sanitize_metrics (.vfloat .inf)) =
      sanitize_metrics (.vfloat .inf) :=
  ⟨by rfl, sanitize_metrics_idempotent.1 (.vfloat .inf)⟩

end Farmease
